import Mathlib

/-!
Verification of the corporate reporting utility in `src/main.py`.

The program reads employee records (dictionaries mapping Russian field
names to strings) from a semicolon-delimited file and offers three menu
actions: display a department/team hierarchy, display a per-department
salary report, and save that report back to a delimited file.

The shallow embedding below follows the Python source function by
function.  Python dictionaries (which have unique keys and preserve
insertion order) are modelled as association lists, fallible operations
(KeyError, ValueError from int(), IndexError, OSError on file open)
return Except values, and the float average salary is modelled as an
exact rational, matching the spec's reading of the arithmetic mean
"within floating-point tolerance".  Strings are compared by their
character lists, which coincides with Python's code-point comparison.
-/

namespace Corp

/-- Employee record and report row: a Python dict from field name to value,
modelled as an association list with unique keys in insertion order. -/
abbrev Record := List (String × String)

/-- Python dict lookup `d[k]`, returning none where Python raises KeyError. -/
def dictGet {β : Type} : List (String × β) → String → Option β
  | [], _ => none
  | (k, v) :: rest, key => if k = key then some v else dictGet rest key

/-- Leading and trailing whitespace removal performed by Python int() on
its string argument. -/
def pyStrip (s : String) : List Char :=
  ((s.data.dropWhile Char.isWhitespace).reverse.dropWhile Char.isWhitespace).reverse

/-- Accumulates the numeric value of a decimal digit string; none if a
non-digit character occurs. -/
def digitsToNat : ℕ → List Char → Option ℕ
  | acc, [] => some acc
  | acc, c :: cs => if c.isDigit then digitsToNat (acc * 10 + (c.toNat - 48)) cs else none

/-- Value of a nonempty decimal digit string. -/
def digitsVal : List Char → Option ℕ
  | [] => none
  | ds => digitsToNat 0 ds

/-- Python `int(s)` for a string argument: optional surrounding whitespace,
optional sign, then decimal digits; none where Python raises ValueError.
(Underscore digit grouping is not used by this program and is omitted.) -/
def pyInt (s : String) : Option ℤ :=
  match pyStrip s with
  | '-' :: ds => (digitsVal ds).map (fun n => -(n : ℤ))
  | '+' :: ds => (digitsVal ds).map (fun n => (n : ℤ))
  | ds => (digitsVal ds).map (fun n => (n : ℤ))

/-- Python `min(l)` on a list of integers: none on the empty list, where
Python raises ValueError. -/
def pymin : List ℤ → Option ℤ
  | [] => none
  | a :: as => some (as.foldl min a)

/-- Python `max(l)` on a list of integers. -/
def pymax : List ℤ → Option ℤ
  | [] => none
  | a :: as => some (as.foldl max a)

/-- Python string comparison: lexicographic on the code-point sequence. -/
def strLe (a b : String) : Prop := a.data ≤ b.data

instance : DecidableRel strLe := fun a b => inferInstanceAs (Decidable (a.data ≤ b.data))

instance : IsTotal String strLe := ⟨fun a b => le_total a.data b.data⟩

instance : IsTrans String strLe := ⟨fun _ _ _ h1 h2 => le_trans h1 h2⟩

instance : IsAntisymm String strLe :=
  ⟨fun a b h1 h2 => by cases a; cases b; exact congrArg String.mk (le_antisymm h1 h2)⟩

/-- Python `sorted(xs)` for strings. -/
def sortStr (l : List String) : List String := l.insertionSort strLe

/-- Strict Python string comparison, used to state that listings are
strictly ascending. -/
def strLt (a b : String) : Prop := a.data < b.data

/-- Exceptions the Python source can raise: KeyError from dict lookups,
ValueError from int() or min()/max() on an empty sequence or from
csv.DictWriter on unknown fields, IndexError from report[0] on an empty
report. -/
inductive PyErr : Type
  | keyError : PyErr
  | valueError : PyErr
  | indexError : PyErr
deriving DecidableEq

/-- One row of the department report built by gen_department_report:
department name, headcount, the rendered salary range, and the average
salary (a Python float, modelled as an exact rational). -/
structure ReportEntry : Type where
  department : String
  headcount : ℕ
  salaryRange : String
  avgSalary : ℚ
deriving DecidableEq

/-- First loop of gen_department_report (lines 75-77 of main.py): reads
entry for the Департамент field of every record, raising KeyError when a
record lacks it. -/
def getDepts : List Record → Except PyErr (List String)
  | [] => .ok []
  | r :: rs =>
    match dictGet r "Департамент" with
    | none => .error .keyError
    | some d => (getDepts rs).map (fun ds => d :: ds)

/-- Salary comprehension of gen_department_report (line 81 of main.py):
int(entry[Оклад]) for every record, raising KeyError on a missing field
and ValueError on a non-integer value. -/
def parseSalaries : List Record → Except PyErr (List ℤ)
  | [] => .ok []
  | r :: rs =>
    match dictGet r "Оклад" with
    | none => .error .keyError
    | some s =>
      match pyInt s with
      | none => .error .valueError
      | some n => (parseSalaries rs).map (fun ns => n :: ns)

/-- List comprehension of line 80 of main.py: the records of one
department. -/
def deptRecords (data : List Record) (d : String) : List Record :=
  data.filter (fun r => decide (dictGet r "Департамент" = some d))

/-- Loop body of gen_department_report for one department (lines 80-93 of
main.py): filter the records of the department, parse their salaries, and
build the report row. -/
def mkEntry (data : List Record) (d : String) : Except PyErr ReportEntry :=
  let ddata := deptRecords data d
  match parseSalaries ddata with
  | .error e => .error e
  | .ok salaries =>
    match pymin salaries, pymax salaries with
    | some mn, some mx =>
      .ok ⟨d, ddata.length, toString mn ++ " – " ++ toString mx,
           (salaries.sum : ℚ) / (salaries.length : ℚ)⟩
    | _, _ => .error .valueError

/-- Second loop of gen_department_report (lines 79-93 of main.py), over an
already-sorted department list. -/
def buildReport (data : List Record) : List String → Except PyErr (List ReportEntry)
  | [] => .ok []
  | d :: ds =>
    match mkEntry data d with
    | .error e => .error e
    | .ok e => (buildReport data ds).map (fun rest => e :: rest)

/-- gen_department_report (lines 66-95 of main.py): collect the set of
department names, then build one report row per department in sorted
order. -/
def genDepartmentReport (data : List Record) : Except PyErr (List ReportEntry) :=
  match getDepts data with
  | .error e => .error e
  | .ok depts => buildReport data (sortStr depts.dedup)

instance {ε α : Type} [DecidableEq ε] [DecidableEq α] : DecidableEq (Except ε α) := fun x y =>
  match x, y with
  | .ok a, .ok b =>
    if h : a = b then isTrue (by rw [h]) else isFalse (fun hh => by cases hh; exact h rfl)
  | .error a, .error b =>
    if h : a = b then isTrue (by rw [h]) else isFalse (fun hh => by cases hh; exact h rfl)
  | .ok _, .error _ => isFalse (fun hh => by cases hh)
  | .error _, .ok _ => isFalse (fun hh => by cases hh)

/-- Python set insertion semantics on a list model: add the element when
absent, keep the list unchanged when present. -/
def addSet (l : List String) (x : String) : List String :=
  if x ∈ l then l else l ++ [x]

/-- teams[department].add(team) with dict-of-sets semantics (lines 53-56
of main.py): create the singleton set on first sight of the department,
otherwise add the team to the existing set. -/
def addTeam (tms : List (String × List String)) (d t : String) : List (String × List String) :=
  match tms with
  | [] => [(d, [t])]
  | (k, ts) :: rest => if k = d then (k, addSet ts t) :: rest else (k, ts) :: addTeam rest d t

/-- First loop of display_hierarchy (lines 47-56 of main.py): one
left-to-right pass collecting the department set and the department-to-team
mapping, raising KeyError when a record lacks either field. -/
def hierCollect : List String × List (String × List String) → List Record →
    Except PyErr (List String × List (String × List String))
  | acc, [] => .ok acc
  | (deps, tms), r :: rs =>
    match dictGet r "Департамент" with
    | none => .error .keyError
    | some d =>
      match dictGet r "Отдел" with
      | none => .error .keyError
      | some t => hierCollect (addSet deps d, addTeam tms d t) rs

/-- Lines printed for one department by display_hierarchy (lines 60-63 of
main.py): the department line, then one indented line per team in sorted
order. -/
def deptLines (tms : List (String × List String)) (d : String) : List String :=
  ("- " ++ d) ::
    (match dictGet tms d with
     | some ts => (sortStr ts).map (fun t => "  - " ++ t)
     | none => [])

/-- display_hierarchy (lines 41-63 of main.py) as the list of printed
lines: a title line, then the per-department blocks for the departments in
sorted order. -/
def displayHierarchy (data : List Record) : Except PyErr (List String) :=
  match hierCollect ([], []) data with
  | .error e => .error e
  | .ok (deps, tms) =>
    .ok ("Иерархия команд:" :: (sortStr deps).flatMap (deptLines tms))

/-- Value of a Python report cell as the table printer observes it: its
str() rendering together with whether the value is numeric.  Under the
bare width format spec of line 116/125 of main.py, str values are
left-aligned and numeric values (int, float) are right-aligned. -/
structure Cell : Type where
  str : String
  numeric : Bool
deriving DecidableEq

/-- A report row for the table printer: a Python dict from column name to
value. -/
abbrev CellRow := List (String × Cell)

/-- String of n spaces. -/
def spaces (n : ℕ) : String := String.mk (List.replicate n ' ')

/-- Python format f-string with a bare width on a str value: pad on the
right (left-justify); no truncation when the value is wider. -/
def padRight (s : String) (w : ℕ) : String := s ++ spaces (w - s.length)

/-- Python format f-string with a bare width on a numeric value: pad on
the left (right-justify). -/
def padLeft (s : String) (w : ℕ) : String := spaces (w - s.length) ++ s

/-- Rendering of one table cell to its column width (lines 124-125 of
main.py): numeric values right-aligned, strings left-aligned. -/
def cellPad (c : Cell) (w : ℕ) : String :=
  if c.numeric then padLeft c.str w else padRight c.str w

/-- Lengths len(str(entry[header])) of one column of the report (line 111
of main.py), raising KeyError when a row lacks the column. -/
def colLens (header : String) : List CellRow → Except PyErr (List ℕ)
  | [] => .ok []
  | e :: es =>
    match dictGet e header with
    | none => .error .keyError
    | some c => (colLens header es).map (fun ls => c.str.length ::  ls)

/-- Python max() over a nonempty list of naturals. -/
def pymaxNat : List ℕ → Option ℕ
  | [] => none
  | a :: as => some (as.foldl max a)

/-- Column width for one header (lines 111-113 of main.py): the maximum of
the header length and every value length in the column. -/
def colWidth (report : List CellRow) (header : String) : Except PyErr ℕ :=
  match colLens header report with
  | .error e => .error e
  | .ok ls =>
    match pymaxNat ls with
    | none => .error .valueError
    | some m => .ok (max header.length m)

/-- Widths of all columns, per header. -/
def colWidths (report : List CellRow) : List String → Except PyErr (List ℕ)
  | [] => .ok []
  | h :: hs =>
    match colWidth report h with
    | .error e => .error e
    | .ok w => (colWidths report hs).map (fun ws => w :: ws)

/-- One printed line assembled from per-column pieces, each followed by
the column separator (end=' | ' in lines 116, 120, 125 of main.py). -/
def joinCols (pieces : List String) : String :=
  String.join (pieces.map (fun p => p ++ " | "))

/-- print_department_report (lines 98-126 of main.py) as the list of
printed lines: the empty-report message for an empty report, otherwise a
header line, a dash separator line, and one line per row using the values
in row order (entry.values()). -/
def printDepartmentReport (report : List CellRow) : Except PyErr (List String) :=
  match report with
  | [] => .ok ["Отчёт пуст."]
  | r0 :: _ =>
    let headers := r0.map Prod.fst
    match colWidths report headers with
    | .error e => .error e
    | .ok widths =>
      .ok (joinCols ((headers.zip widths).map (fun p => padRight p.1 p.2))
        :: joinCols (widths.map (fun w => String.mk (List.replicate w '-')))
        :: report.map (fun e =>
             joinCols (((e.map Prod.snd).zip widths).map (fun p => cellPad p.1 p.2))))

/-- Double-quote character, the csv module's quotechar. -/
def quoteChar : Char := Char.ofNat 34

/-- Characters forcing csv.writer QUOTE_MINIMAL quoting: the delimiter,
the quotechar, and the line-terminator characters. -/
def isSpecialChar (c : Char) : Bool :=
  c = ';' || c = quoteChar || c = '\n' || c = '\r'

/-- Doubling of embedded quotechars performed by csv.writer inside a
quoted field. -/
def escQuotes : List Char → List Char
  | [] => []
  | c :: cs =>
    if c = quoteChar then quoteChar :: quoteChar :: escQuotes cs else c :: escQuotes cs

/-- csv.writer rendering of one field with QUOTE_MINIMAL: quoted with
doubled quotechars when the field contains a special character, verbatim
otherwise. -/
def encodeField (s : String) : List Char :=
  if s.data.any isSpecialChar then quoteChar :: (escQuotes s.data ++ [quoteChar]) else s.data

/-- csv.writer rendering of one row: fields joined by the delimiter. -/
def encodeRow : List String → List Char
  | [] => []
  | [f] => encodeField f
  | f :: fs => encodeField f ++ ';' :: encodeRow fs

/-- Whole file written by csv.writer: one encoded row per record, each
terminated by the default lineterminator CRLF. -/
def csvContent : List (List String) → List Char
  | [] => []
  | r :: rs => encodeRow r ++ '\r' :: '\n' :: csvContent rs

/-- save_report_to_csv (lines 129-142 of main.py) producing the written
file content.  Field names come from the first row (report[0].keys(),
IndexError on an empty report); csv.DictWriter writes a header line and
then each row's values in field-name order, raising ValueError when a row
holds a key outside the field names and writing restval (None, rendered
as the empty string) for a missing key.  Cell values are passed here
already rendered by str(). -/
def saveReportToCSV (report : List Record) : Except PyErr String :=
  match report with
  | [] => .error .indexError
  | r0 :: _ =>
    let fieldnames := r0.map Prod.fst
    if report.all (fun r => r.all (fun p => decide (p.1 ∈ fieldnames))) then
      .ok (String.mk (csvContent (fieldnames ::
        report.map (fun r => fieldnames.map (fun k => (dictGet r k).getD "")))))
    else .error .valueError

/-- States of the csv field scanner: at the start of a field, inside an
unquoted field, inside a quoted field, or just after a closing quote. -/
inductive CsvMode : Type
  | start : CsvMode
  | bare : CsvMode
  | quoted : CsvMode
  | afterQuote : CsvMode

/-- Consumes the LF of a CRLF line ending. -/
def stripLF : List Char → List Char
  | '\n' :: cs => cs
  | cs => cs

/-- csv.reader scanning of one line (record): returns the parsed fields
and the unconsumed rest of the input.  A quoted field may span line
endings; a completely blank line yields the empty record, as csv.reader
does. -/
def parseLine : CsvMode → List Char → List String → List Char → List String × List Char
  | _, acc, fields, [] => (fields ++ [String.mk acc], [])
  | .start, acc, fields, c :: cs =>
    if c = quoteChar then parseLine .quoted acc fields cs
    else if c = ';' then parseLine .start [] (fields ++ [String.mk acc]) cs
    else if c = '\n' then
      (if fields = [] then ([], cs) else (fields ++ [String.mk acc], cs))
    else if c = '\r' then
      (if fields = [] then ([], stripLF cs) else (fields ++ [String.mk acc], stripLF cs))
    else parseLine .bare (acc ++ [c]) fields cs
  | .bare, acc, fields, c :: cs =>
    if c = ';' then parseLine .start [] (fields ++ [String.mk acc]) cs
    else if c = '\n' then (fields ++ [String.mk acc], cs)
    else if c = '\r' then (fields ++ [String.mk acc], stripLF cs)
    else parseLine .bare (acc ++ [c]) fields cs
  | .quoted, acc, fields, c :: cs =>
    if c = quoteChar then parseLine .afterQuote acc fields cs
    else parseLine .quoted (acc ++ [c]) fields cs
  | .afterQuote, acc, fields, c :: cs =>
    if c = quoteChar then parseLine .quoted (acc ++ [quoteChar]) fields cs
    else if c = ';' then parseLine .start [] (fields ++ [String.mk acc]) cs
    else if c = '\n' then (fields ++ [String.mk acc], cs)
    else if c = '\r' then (fields ++ [String.mk acc], stripLF cs)
    else parseLine .bare (acc ++ [c]) fields cs

/-- csv.reader scanning of a whole input: one record per line.  The fuel
argument bounds the recursion; parseLine consumes at least one character
per record, so fuel equal to the input length always suffices. -/
def parseRowsFuel : ℕ → List Char → List (List String)
  | 0, _ => []
  | _ + 1, [] => []
  | n + 1, c :: cs =>
    let pr := parseLine .start [] [] (c :: cs)
    pr.1 :: parseRowsFuel n pr.2

/-- read_data (lines 26-38 of main.py): csv.DictReader collects one dict
per non-blank data line, zipping the header field names with the line's
values.  (With equal-length rows, as produced by this program, the
restkey/restval padding of DictReader never applies.) -/
def readData (content : String) : List Record :=
  match parseRowsFuel content.data.length content.data with
  | [] => []
  | header :: rows =>
    (rows.filter (fun r => decide (r ≠ []))).map (fun r => header.zip r)

/-- Errors that can escape one iteration of the menu loop of main (lines
167-197 of main.py): an uncaught Python exception from the handlers, or
OSError from opening the output file for writing. -/
inductive SessionError : Type
  | pyExc : PyErr → SessionError
  | ioError : SessionError
deriving DecidableEq

/-- Output path actually saved to: the entered name, or the default
../report.csv on an empty entry (lines 183-184, 189-190 of main.py). -/
def outPath (outName : String) : String :=
  if outName = "" then "../report.csv" else outName

/-- One iteration of the menu loop of main (lines 174-197 of main.py),
given the loaded data, the cached report, the menu choice and the output
file name entered for a save.  Returns the new cached report, the save
events performed (output name and the report that was saved), and whether
the loop continues; an error means an uncaught exception terminated the
program.  The writable predicate models which paths open(..., mode w) can
open; save_report_to_csv opens the file before reading report[0]. -/
def menuStep (writable : String → Bool) (data : List Record)
    (cache : Option (List ReportEntry)) (choice outName : String) :
    Except SessionError (Option (List ReportEntry) × List (String × List ReportEntry) × Bool) :=
  if choice = "1" then
    match displayHierarchy data with
    | .error e => .error (.pyExc e)
    | .ok _ => .ok (cache, [], true)
  else if choice = "2" then
    match genDepartmentReport data with
    | .error e => .error (.pyExc e)
    | .ok rep => .ok (some rep, [], true)
  else if choice = "3" then
    match cache with
    | some rep =>
      if writable (outPath outName) then
        (if rep = [] then .error (.pyExc .indexError)
         else .ok (cache, [(outPath outName, rep)], true))
      else .error .ioError
    | none =>
      match genDepartmentReport data with
      | .error e => .error (.pyExc e)
      | .ok rep =>
        if writable (outPath outName) then
          (if rep = [] then .error (.pyExc .indexError)
           else .ok (some rep, [(outPath outName, rep)], true))
        else .error .ioError
  else if choice = "exit" then .ok (cache, [], false)
  else .ok (cache, [], true)

/-- The menu loop of main run on a list of user inputs (choice and, for
saves, the output name).  Returns the save events performed and the
uncaught exception that terminated the program, if any; inputs after a
terminating error or after exit are never processed. -/
def runSession (writable : String → Bool) (data : List Record) :
    Option (List ReportEntry) → List (String × String) →
    List (String × List ReportEntry) × Option SessionError
  | _, [] => ([], none)
  | cache, (choice, out) :: rest =>
    match menuStep writable data cache choice out with
    | .error e => ([], some e)
    | .ok (cache2, evs, cont) =>
      if cont then
        let res := runSession writable data cache2 rest
        (evs ++ res.1, res.2)
      else (evs, none)

/-- Specification predicate for one report row: its headcount is the
number of records of its department, its salary range is rendered from
the minimum and maximum of those records' parsed salaries, and its
average is their exact sum divided by their count. -/
def reportEntryCorrect (data : List Record) (e : ReportEntry) : Prop :=
  ∃ salaries, parseSalaries (deptRecords data e.department) = .ok salaries ∧
    e.headcount = (deptRecords data e.department).length ∧
    salaries.length = e.headcount ∧
    ∃ mn mx, mn ∈ salaries ∧ mx ∈ salaries ∧
      (∀ x ∈ salaries, mn ≤ x ∧ x ≤ mx) ∧ mn ≤ mx ∧
      e.salaryRange = toString mn ++ " – " ++ toString mx ∧
      e.avgSalary = (salaries.sum : ℚ) / (e.headcount : ℚ)

end Corp

section ExampleData

open Corp

/-- Three records with departments A, A, B; the scenario of section 8 of
the spec. -/
def exData : List Record :=
  [[("Департамент", "A"), ("Отдел", "X"), ("Оклад", "100")],
   [("Департамент", "A"), ("Отдел", "Y"), ("Оклад", "300")],
   [("Департамент", "B"), ("Отдел", "X"), ("Оклад", "200")]]

example : pyInt "  -42 " = some (-42) := by decide

example : pyInt "abc" = none := by decide

example : pyInt "" = none := by decide

example : (genDepartmentReport exData).toOption.map (List.map ReportEntry.department)
    = some ["A", "B"] := by decide

example : (genDepartmentReport exData).toOption.map (List.map ReportEntry.headcount)
    = some [2, 1] := by decide

example : (genDepartmentReport exData).toOption.map (List.map ReportEntry.salaryRange)
    = some ["100 – 300", "200 – 200"] := by decide

example : displayHierarchy exData =
    .ok ["Иерархия команд:", "- A", "  - X", "  - Y", "- B", "  - X"] := by decide

example : printDepartmentReport [] = .ok ["Отчёт пуст."] := by decide

example : printDepartmentReport [[("Численность", ⟨"5", true⟩)]] =
    .ok ["Численность | ", "----------- | ", "          5 | "] := by decide

example : printDepartmentReport
      [[("Д", ⟨"ab", false⟩), ("N", ⟨"100", true⟩)],
       [("Д", ⟨"c", false⟩), ("N", ⟨"7", true⟩)]] =
    .ok ["Д  | N   | ", "-- | --- | ", "ab | 100 | ", "c  |   7 | "] := by decide

example : saveReportToCSV [[("a", "x"), ("b", "1;2")]] =
    .ok (String.mk ('a' :: ';' :: 'b' :: '\r' :: '\n' :: 'x' :: ';' :: quoteChar ::
      '1' :: ';' :: '2' :: quoteChar :: '\r' :: '\n' :: [])) := by decide

example : readData (String.mk ('a' :: ';' :: 'b' :: '\r' :: '\n' :: 'x' :: ';' :: quoteChar ::
      '1' :: ';' :: '2' :: quoteChar :: '\r' :: '\n' :: [])) =
    [[("a", "x"), ("b", "1;2")]] := by decide

example : runSession (fun _ => true) exData none [("2", ""), ("bogus", ""), ("exit", "")] =
    ([], none) := by decide

example : (runSession (fun _ => true)
      [[("Департамент", "A"), ("Отдел", "X"), ("Оклад", "oops")]] none [("2", "")]) =
    ([], some (.pyExc .valueError)) := by decide

example : (runSession (fun _ => false) exData none [("3", "r.csv"), ("1", "")]) =
    ([], some .ioError) := by decide

/-- A single record whose Оклад field is not an integer. -/
def exBadSalary : List Record :=
  [[("Департамент", "A"), ("Отдел", "X"), ("Оклад", "12k")]]

/-- Records whose Оклад field is missing or malformed while both
hierarchy fields are present. -/
def exNoSalary : List Record :=
  [[("Департамент", "B"), ("Отдел", "Y")],
   [("Департамент", "A"), ("Отдел", "X"), ("Оклад", "###")]]

/-- The rows of exData in a different order. -/
def exDataSwapped : List Record :=
  [[("Департамент", "B"), ("Отдел", "X"), ("Оклад", "200")],
   [("Департамент", "A"), ("Отдел", "Y"), ("Оклад", "300")],
   [("Департамент", "A"), ("Отдел", "X"), ("Оклад", "100")]]

end ExampleData

open Corp

section HelperLemmas

variable {α : Type} [LinearOrder α]

theorem foldl_min_mem (as : List α) : ∀ a, as.foldl min a ∈ a :: as := by
  induction as with
  | nil => intro a; simp
  | cons c as ih =>
    intro a
    rw [List.foldl_cons]
    rcases List.mem_cons.mp (ih (min a c)) with h2 | h2
    · rcases min_choice a c with h3 | h3
      · rw [h2, h3]; exact List.mem_cons_self _ _
      · rw [h2, h3]; simp
    · simp [h2]

theorem foldl_min_le (as : List α) : ∀ a, ∀ x ∈ a :: as, as.foldl min a ≤ x := by
  induction as with
  | nil =>
    intro a x hx
    rw [List.mem_singleton] at hx
    subst hx
    simp
  | cons c as ih =>
    intro a x hx
    rw [List.foldl_cons]
    have hmin : as.foldl min (min a c) ≤ min a c := ih (min a c) (min a c) (List.mem_cons_self _ _)
    rcases List.mem_cons.mp hx with rfl | hx2
    · exact le_trans hmin (min_le_left _ _)
    rcases List.mem_cons.mp hx2 with rfl | hx3
    · exact le_trans hmin (min_le_right _ _)
    · exact ih (min a c) x (List.mem_cons_of_mem _ hx3)

theorem foldl_max_mem (as : List α) : ∀ a, as.foldl max a ∈ a :: as := by
  induction as with
  | nil => intro a; simp
  | cons c as ih =>
    intro a
    rw [List.foldl_cons]
    rcases List.mem_cons.mp (ih (max a c)) with h2 | h2
    · rcases max_choice a c with h3 | h3
      · rw [h2, h3]; exact List.mem_cons_self _ _
      · rw [h2, h3]; simp
    · simp [h2]

theorem foldl_max_le (as : List α) : ∀ a, ∀ x ∈ a :: as, x ≤ as.foldl max a := by
  induction as with
  | nil =>
    intro a x hx
    rw [List.mem_singleton] at hx
    subst hx
    simp
  | cons c as ih =>
    intro a x hx
    rw [List.foldl_cons]
    have hmax : max a c ≤ as.foldl max (max a c) := ih (max a c) (max a c) (List.mem_cons_self _ _)
    rcases List.mem_cons.mp hx with rfl | hx2
    · exact le_trans (le_max_left _ _) hmax
    rcases List.mem_cons.mp hx2 with rfl | hx3
    · exact le_trans (le_max_right _ _) hmax
    · exact ih (max a c) x (List.mem_cons_of_mem _ hx3)

theorem pymin_spec {l : List ℤ} {m : ℤ} (h : pymin l = some m) :
    m ∈ l ∧ ∀ x ∈ l, m ≤ x := by
  match l with
  | [] => simp [pymin] at h
  | a :: as =>
    simp only [pymin, Option.some.injEq] at h
    subst h
    exact ⟨foldl_min_mem as a, foldl_min_le as a⟩

theorem pymax_spec {l : List ℤ} {m : ℤ} (h : pymax l = some m) :
    m ∈ l ∧ ∀ x ∈ l, x ≤ m := by
  match l with
  | [] => simp [pymax] at h
  | a :: as =>
    simp only [pymax, Option.some.injEq] at h
    subst h
    exact ⟨foldl_max_mem as a, foldl_max_le as a⟩

theorem pymin_isSome {l : List ℤ} (h : l ≠ []) : ∃ m, pymin l = some m := by
  match l with
  | [] => exact absurd rfl h
  | a :: as => exact ⟨as.foldl min a, rfl⟩

theorem pymax_isSome {l : List ℤ} (h : l ≠ []) : ∃ m, pymax l = some m := by
  match l with
  | [] => exact absurd rfl h
  | a :: as => exact ⟨as.foldl max a, rfl⟩

theorem pymin_perm {l₁ l₂ : List ℤ} (h : l₁.Perm l₂) : pymin l₁ = pymin l₂ := by
  match hl₁ : l₁, hl₂ : l₂ with
  | [], l₂ =>
    have := h.nil_eq
    simp_all
  | a :: as, [] => exact absurd h.symm.nil_eq (by simp)
  | a :: as, b :: bs =>
    obtain ⟨m₁, hm₁⟩ := pymin_isSome (l := a :: as) (by simp)
    obtain ⟨m₂, hm₂⟩ := pymin_isSome (l := b :: bs) (by simp)
    obtain ⟨hmem₁, hle₁⟩ := pymin_spec hm₁
    obtain ⟨hmem₂, hle₂⟩ := pymin_spec hm₂
    rw [hm₁, hm₂, Option.some.injEq]
    exact le_antisymm (hle₁ m₂ (h.mem_iff.mpr hmem₂)) (hle₂ m₁ (h.mem_iff.mp hmem₁))

theorem pymax_perm {l₁ l₂ : List ℤ} (h : l₁.Perm l₂) : pymax l₁ = pymax l₂ := by
  match hl₁ : l₁, hl₂ : l₂ with
  | [], l₂ =>
    have := h.nil_eq
    simp_all
  | a :: as, [] => exact absurd h.symm.nil_eq (by simp)
  | a :: as, b :: bs =>
    obtain ⟨m₁, hm₁⟩ := pymax_isSome (l := a :: as) (by simp)
    obtain ⟨m₂, hm₂⟩ := pymax_isSome (l := b :: bs) (by simp)
    obtain ⟨hmem₁, hle₁⟩ := pymax_spec hm₁
    obtain ⟨hmem₂, hle₂⟩ := pymax_spec hm₂
    rw [hm₁, hm₂, Option.some.injEq]
    exact le_antisymm (hle₂ m₁ (h.mem_iff.mp hmem₁)) (hle₁ m₂ (h.mem_iff.mpr hmem₂))

end HelperLemmas

section AggregationLemmas

theorem getDepts_ok (data : List Record)
    (h : ∀ r ∈ data, (dictGet r "Департамент").isSome) :
    getDepts data = .ok (data.filterMap (fun r => dictGet r "Департамент")) := by
  induction data with
  | nil => rfl
  | cons r rs ih =>
    obtain ⟨d, hd⟩ := Option.isSome_iff_exists.mp (h r (List.mem_cons_self _ _))
    rw [getDepts, hd, ih (fun r2 hr2 => h r2 (List.mem_cons_of_mem _ hr2)),
      List.filterMap_cons, hd]
    rfl

theorem parseSalaries_ok (l : List Record)
    (h : ∀ r ∈ l, ((dictGet r "Оклад").bind pyInt).isSome) :
    parseSalaries l = .ok (l.filterMap (fun r => (dictGet r "Оклад").bind pyInt)) := by
  induction l with
  | nil => rfl
  | cons r rs ih =>
    have hr := h r (List.mem_cons_self _ _)
    match hs : dictGet r "Оклад" with
    | none => rw [hs] at hr; simp [Option.bind] at hr
    | some s =>
      rw [hs] at hr
      obtain ⟨n, hn⟩ := Option.isSome_iff_exists.mp hr
      simp only [Option.some_bind] at hn
      simp only [parseSalaries, hs, hn, List.filterMap_cons, Option.some_bind,
        ih (fun r2 hr2 => h r2 (List.mem_cons_of_mem _ hr2))]
      rfl

theorem parseSalaries_length (l : List Record) :
    ∀ s, parseSalaries l = .ok s → s.length = l.length := by
  induction l with
  | nil =>
    intro s h
    rw [parseSalaries] at h
    cases h
    rfl
  | cons r rs ih =>
    intro s h
    match hs : dictGet r "Оклад" with
    | none =>
      simp only [parseSalaries, hs] at h
      cases h
    | some str =>
      match hn : pyInt str with
      | none =>
        simp only [parseSalaries, hs, hn] at h
        cases h
      | some n =>
        match hps : parseSalaries rs with
        | .error e =>
          simp only [parseSalaries, hs, hn, hps, Except.map] at h
          cases h
        | .ok s2 =>
          simp only [parseSalaries, hs, hn, hps, Except.map, Except.ok.injEq] at h
          subst h
          simp [ih s2 hps]

theorem mkEntry_ok (data : List Record) (d : String)
    (hsal : ∀ r ∈ data, ((dictGet r "Оклад").bind pyInt).isSome)
    (hd : ∃ r ∈ data, dictGet r "Департамент" = some d) :
    ∃ e, mkEntry data d = .ok e ∧ e.department = d ∧ reportEntryCorrect data e := by
  have hsub : ∀ r ∈ deptRecords data d, r ∈ data := fun r hr => List.mem_of_mem_filter hr
  have hsal2 : ∀ r ∈ deptRecords data d, ((dictGet r "Оклад").bind pyInt).isSome :=
    fun r hr => hsal r (hsub r hr)
  have hps := parseSalaries_ok (deptRecords data d) hsal2
  have hne : deptRecords data d ≠ [] := by
    obtain ⟨r, hr, hrd⟩ := hd
    have : r ∈ deptRecords data d := List.mem_filter.mpr ⟨hr, by simp [hrd]⟩
    exact fun hnil => by rw [hnil] at this; cases this
  set salaries := (deptRecords data d).filterMap (fun r => (dictGet r "Оклад").bind pyInt)
    with hsal_def
  have hlen : salaries.length = (deptRecords data d).length := parseSalaries_length _ _ hps
  have hsne : salaries ≠ [] := by
    intro hnil
    rw [hnil] at hlen
    exact hne (List.length_eq_zero.mp hlen.symm)
  obtain ⟨mn, hmn⟩ := pymin_isSome hsne
  obtain ⟨mx, hmx⟩ := pymax_isSome hsne
  refine ⟨⟨d, (deptRecords data d).length, toString mn ++ " – " ++ toString mx,
    (salaries.sum : ℚ) / ((deptRecords data d).length : ℚ)⟩, ?_, rfl, ?_⟩
  · simp only [mkEntry, hps, hmn, hmx, hlen]
  · obtain ⟨hmn_mem, hmn_le⟩ := pymin_spec hmn
    obtain ⟨hmx_mem, hmx_le⟩ := pymax_spec hmx
    exact ⟨salaries, hps, rfl, hlen, mn, mx, hmn_mem, hmx_mem,
      fun x hx => ⟨hmn_le x hx, hmx_le x hx⟩, hmn_le mx hmx_mem, rfl, rfl⟩

theorem buildReport_ok (data : List Record)
    (hsal : ∀ r ∈ data, ((dictGet r "Оклад").bind pyInt).isSome) :
    ∀ ds, (∀ d ∈ ds, ∃ r ∈ data, dictGet r "Департамент" = some d) →
      ∃ rep, buildReport data ds = .ok rep ∧ rep.map ReportEntry.department = ds ∧
        ∀ e ∈ rep, reportEntryCorrect data e := by
  intro ds
  induction ds with
  | nil => intro _; exact ⟨[], rfl, rfl, fun e he => absurd he (List.not_mem_nil e)⟩
  | cons d ds ih =>
    intro h
    obtain ⟨e, he, hed, hec⟩ := mkEntry_ok data d hsal (h d (List.mem_cons_self _ _))
    obtain ⟨rep, hrep, hmap, hall⟩ := ih (fun d2 hd2 => h d2 (List.mem_cons_of_mem _ hd2))
    refine ⟨e :: rep, ?_, ?_, ?_⟩
    · rw [buildReport, he, hrep]
      rfl
    · rw [List.map_cons, hmap, hed]
    · intro e2 he2
      rcases List.mem_cons.mp he2 with rfl | he3
      · exact hec
      · exact hall e2 he3

theorem mem_sortStr {x : String} {l : List String} : x ∈ sortStr l ↔ x ∈ l :=
  (List.perm_insertionSort strLe l).mem_iff

theorem genReport_spec (data : List Record)
    (hdep : ∀ r ∈ data, (dictGet r "Департамент").isSome)
    (hsal : ∀ r ∈ data, ((dictGet r "Оклад").bind pyInt).isSome) :
    ∃ report, genDepartmentReport data = .ok report ∧
      report.map ReportEntry.department =
        sortStr (data.filterMap (fun r => dictGet r "Департамент")).dedup ∧
      (report.map ReportEntry.department).Nodup ∧
      ∀ e ∈ report, reportEntryCorrect data e := by
  have hds := getDepts_ok data hdep
  set ds := data.filterMap (fun r => dictGet r "Департамент") with hds_def
  have hmem : ∀ d ∈ sortStr ds.dedup, ∃ r ∈ data, dictGet r "Департамент" = some d := by
    intro d hd
    have : d ∈ ds := List.mem_dedup.mp (mem_sortStr.mp hd)
    exact List.mem_filterMap.mp this
  obtain ⟨rep, hrep, hmap, hall⟩ := buildReport_ok data hsal (sortStr ds.dedup) hmem
  refine ⟨rep, ?_, hmap, ?_, hall⟩
  · rw [genDepartmentReport, hds]
    exact hrep
  · rw [hmap]
    exact (List.perm_insertionSort strLe ds.dedup).nodup_iff.mpr ds.nodup_dedup

end AggregationLemmas

/-- Claim C1: for every record sequence whose records carry a department
and an integer-parseable Оклад field, gen_department_report returns one
summary per distinct department (its department column enumerates the
distinct department values, sorted, without duplicates), and every
summary satisfies reportEntryCorrect: headcount is the number of records
of the department, the salary range is rendered from the minimum and
maximum of those records' salaries (minimum at most maximum), and the
average is exactly their sum divided by their count, unrounded. -/
theorem C1_report_aggregates_correct (data : List Record)
    (hdep : ∀ r ∈ data, (dictGet r "Департамент").isSome)
    (hsal : ∀ r ∈ data, ((dictGet r "Оклад").bind pyInt).isSome) :
    ∃ report, genDepartmentReport data = .ok report ∧
      report.map ReportEntry.department =
        sortStr (data.filterMap (fun r => dictGet r "Департамент")).dedup ∧
      (report.map ReportEntry.department).Nodup ∧
      ∀ e ∈ report, reportEntryCorrect data e :=
  genReport_spec data hdep hsal

/-- Witness for C1 at the three-record scenario of section 8 of the
spec. -/
theorem C1_report_aggregates_correct_witness :
    ∃ report, genDepartmentReport exData = .ok report ∧
      report.map ReportEntry.department =
        sortStr (exData.filterMap (fun r => dictGet r "Департамент")).dedup ∧
      (report.map ReportEntry.department).Nodup ∧
      ∀ e ∈ report, reportEntryCorrect exData e :=
  C1_report_aggregates_correct exData (by decide) (by decide)

section SortednessLemmas

theorem dictGet_filter_ne (r : Record) (k : String) (hk : k ≠ "Оклад") :
    dictGet (r.filter (fun p => p.1 != "Оклад")) k = dictGet r k := by
  induction r with
  | nil => rfl
  | cons p rest ih =>
    obtain ⟨k0, v0⟩ := p
    by_cases h0 : k0 = "Оклад"
    · subst h0
      have h1 : ¬ (("Оклад" : String) = k) := fun hh => hk hh.symm
      simp only [List.filter_cons, bne_self_eq_false, Bool.false_eq_true, if_false]
      rw [ih, dictGet, if_neg h1]
    · have h2 : ((k0 : String) != "Оклад") = true := bne_iff_ne.mpr h0
      simp only [List.filter_cons, h2, if_true]
      rw [dictGet, dictGet]
      by_cases h1 : k0 = k
      · rw [if_pos h1, if_pos h1]
      · rw [if_neg h1, if_neg h1]
        exact ih

theorem hierCollect_ok (data : List Record) :
    ∀ acc, (∀ r ∈ data, (dictGet r "Департамент").isSome ∧ (dictGet r "Отдел").isSome) →
      ∃ out, hierCollect acc data = .ok out := by
  induction data with
  | nil => intro acc _; exact ⟨acc, rfl⟩
  | cons r rs ih =>
    intro acc h
    obtain ⟨hd, ht⟩ := h r (List.mem_cons_self _ _)
    obtain ⟨d, hd2⟩ := Option.isSome_iff_exists.mp hd
    obtain ⟨t, ht2⟩ := Option.isSome_iff_exists.mp ht
    obtain ⟨deps, tms⟩ := acc
    obtain ⟨out, hout⟩ := ih (addSet deps d, addTeam tms d t)
      (fun r2 hr2 => h r2 (List.mem_cons_of_mem _ hr2))
    exact ⟨out, by simp [hierCollect, hd2, ht2, hout]⟩

theorem hierCollect_scrub (data : List Record) :
    ∀ acc, hierCollect acc (data.map (fun r => r.filter (fun p => p.1 != "Оклад"))) =
      hierCollect acc data := by
  induction data with
  | nil => intro acc; rfl
  | cons r rs ih =>
    intro acc
    obtain ⟨deps, tms⟩ := acc
    rw [List.map_cons]
    show hierCollect (deps, tms) (_ :: _) = _
    rw [hierCollect, hierCollect,
      dictGet_filter_ne r "Департамент" (by decide), dictGet_filter_ne r "Отдел" (by decide)]
    match dictGet r "Департамент", dictGet r "Отдел" with
    | none, _ => rfl
    | some d, none => rfl
    | some d, some t => exact ih (addSet deps d, addTeam tms d t)


theorem strLt_of_strLe_of_ne {a b : String} (h1 : strLe a b) (h2 : a ≠ b) : strLt a b := by
  refine lt_of_le_of_ne h1 (fun hd => h2 ?_)
  cases a
  cases b
  exact congrArg String.mk hd

theorem sortStr_pairwise_lt (l : List String) (h : l.Nodup) : (sortStr l).Pairwise strLt := by
  have hs : (sortStr l).Pairwise strLe := List.sorted_insertionSort strLe l
  have hn : (sortStr l).Pairwise (· ≠ ·) := (List.perm_insertionSort strLe l).nodup_iff.mpr h
  exact (hs.and hn).imp (fun hab => strLt_of_strLe_of_ne hab.1 hab.2)

theorem addSet_nodup (l : List String) (x : String) (h : l.Nodup) : (addSet l x).Nodup := by
  rw [addSet]
  by_cases hx : x ∈ l
  · rw [if_pos hx]
    exact h
  · rw [if_neg hx]
    rw [List.nodup_append]
    refine ⟨h, List.nodup_singleton x, ?_⟩
    intro a ha hax
    rw [List.mem_singleton] at hax
    subst hax
    exact hx ha

theorem addTeam_nodup (tms : List (String × List String)) (d t : String)
    (h : ∀ p ∈ tms, p.2.Nodup) : ∀ p ∈ addTeam tms d t, p.2.Nodup := by
  induction tms with
  | nil =>
    intro p hp
    rw [addTeam] at hp
    rcases List.mem_singleton.mp hp with rfl
    exact List.nodup_singleton t
  | cons q rest ih =>
    obtain ⟨k, ts⟩ := q
    intro p hp
    rw [addTeam] at hp
    by_cases hk : k = d
    · rw [if_pos hk] at hp
      rcases List.mem_cons.mp hp with rfl | hp2
      · exact addSet_nodup ts t (h (k, ts) (List.mem_cons_self _ _))
      · exact h p (List.mem_cons_of_mem _ hp2)
    · rw [if_neg hk] at hp
      rcases List.mem_cons.mp hp with rfl | hp2
      · exact h (k, ts) (List.mem_cons_self _ _)
      · exact ih (fun q hq => h q (List.mem_cons_of_mem _ hq)) p hp2

theorem hierCollect_inv (data : List Record) :
    ∀ deps tms deps2 tms2, hierCollect (deps, tms) data = .ok (deps2, tms2) →
      deps.Nodup → (∀ p ∈ tms, p.2.Nodup) →
      deps2.Nodup ∧ ∀ p ∈ tms2, p.2.Nodup := by
  induction data with
  | nil =>
    intro deps tms deps2 tms2 h h1 h2
    rw [hierCollect] at h
    cases h
    exact ⟨h1, h2⟩
  | cons r rs ih =>
    intro deps tms deps2 tms2 h h1 h2
    rw [hierCollect] at h
    match hd : dictGet r "Департамент" with
    | none => rw [hd] at h; cases h
    | some d =>
      rw [hd] at h
      match ht : dictGet r "Отдел" with
      | none => rw [ht] at h; cases h
      | some t =>
        rw [ht] at h
        exact ih (addSet deps d) (addTeam tms d t) deps2 tms2 h
          (addSet_nodup deps d h1) (addTeam_nodup tms d t h2)

theorem dictGet_mem {β : Type} {l : List (String × β)} {k : String} {v : β}
    (h : dictGet l k = some v) : (k, v) ∈ l := by
  induction l with
  | nil => cases h
  | cons p rest ih =>
    obtain ⟨k0, v0⟩ := p
    rw [dictGet] at h
    by_cases hk : k0 = k
    · rw [if_pos hk] at h
      cases h
      subst hk
      exact List.mem_cons_self _ _
    · rw [if_neg hk] at h
      exact List.mem_cons_of_mem _ (ih h)

end SortednessLemmas

/-- Claim C3: on parseable data, the department column of
gen_department_report's output is strictly ascending (lexicographically
by code points) with no duplicates, and display_hierarchy prints the
departments strictly ascending and, within each department, the distinct
team names strictly ascending. -/
theorem C3_output_strictly_sorted (data : List Record)
    (hkeys : ∀ r ∈ data, (dictGet r "Департамент").isSome ∧ (dictGet r "Отдел").isSome)
    (hsal : ∀ r ∈ data, ((dictGet r "Оклад").bind pyInt).isSome) :
    (∃ report, genDepartmentReport data = .ok report ∧
       (report.map ReportEntry.department).Pairwise strLt) ∧
    (∃ deps tms, hierCollect ([], []) data = .ok (deps, tms) ∧
       displayHierarchy data =
         .ok ("Иерархия команд:" :: (sortStr deps).flatMap (deptLines tms)) ∧
       (sortStr deps).Pairwise strLt ∧
       ∀ d ts, dictGet tms d = some ts → (sortStr ts).Pairwise strLt) := by
  constructor
  · obtain ⟨report, hrep, hmap, hnodup, -⟩ :=
      genReport_spec data (fun r hr => (hkeys r hr).1) hsal
    refine ⟨report, hrep, ?_⟩
    rw [hmap]
    exact sortStr_pairwise_lt _ (List.nodup_dedup _)
  · obtain ⟨out, hout⟩ := hierCollect_ok data ([], []) hkeys
    obtain ⟨deps, tms⟩ := out
    refine ⟨deps, tms, hout, by rw [displayHierarchy, hout], ?_, ?_⟩
    · exact sortStr_pairwise_lt deps
        (hierCollect_inv data [] [] deps tms hout List.nodup_nil (by simp)).1
    · intro d ts hts
      refine sortStr_pairwise_lt ts ?_
      exact (hierCollect_inv data [] [] deps tms hout List.nodup_nil (by simp)).2
        (d, ts) (dictGet_mem hts)

/-- Witness for C3 at the three-record scenario data. -/
theorem C3_output_strictly_sorted_witness :
    (∃ report, genDepartmentReport exData = .ok report ∧
       (report.map ReportEntry.department).Pairwise strLt) ∧
    (∃ deps tms, hierCollect ([], []) exData = .ok (deps, tms) ∧
       displayHierarchy exData =
         .ok ("Иерархия команд:" :: (sortStr deps).flatMap (deptLines tms)) ∧
       (sortStr deps).Pairwise strLt ∧
       ∀ d ts, dictGet tms d = some ts → (sortStr ts).Pairwise strLt) :=
  C3_output_strictly_sorted exData (by decide) (by decide)

section PermutationLemmas

theorem sortStr_eq_of_perm {l₁ l₂ : List String} (h : l₁.Perm l₂) : sortStr l₁ = sortStr l₂ := by
  refine List.eq_of_perm_of_sorted ?_ (List.sorted_insertionSort strLe l₁)
    (List.sorted_insertionSort strLe l₂)
  exact (List.perm_insertionSort strLe l₁).trans (h.trans (List.perm_insertionSort strLe l₂).symm)

theorem getDepts_dichotomy (l : List Record) :
    (∀ r ∈ l, (dictGet r "Департамент").isSome) ∨
    ((∃ r ∈ l, dictGet r "Департамент" = none) ∧ getDepts l = .error .keyError) := by
  induction l with
  | nil =>
    left
    intro r hr
    cases hr
  | cons r rs ih =>
    match hd : dictGet r "Департамент" with
    | none =>
      right
      exact ⟨⟨r, List.mem_cons_self _ _, hd⟩, by rw [getDepts, hd]⟩
    | some d =>
      rcases ih with h1 | ⟨⟨r2, hr2, hr2d⟩, herr⟩
      · left
        intro r3 hr3
        rcases List.mem_cons.mp hr3 with rfl | hr4
        · rw [hd]; rfl
        · exact h1 r3 hr4
      · right
        refine ⟨⟨r2, List.mem_cons_of_mem _ hr2, hr2d⟩, ?_⟩
        rw [getDepts, hd, herr]
        rfl

theorem mkEntry_perm {data data' : List Record} (hperm : data.Perm data')
    (hsal : ∀ r ∈ data, ((dictGet r "Оклад").bind pyInt).isSome) (d : String) :
    mkEntry data d = mkEntry data' d := by
  have hsal' : ∀ r ∈ data', ((dictGet r "Оклад").bind pyInt).isSome :=
    fun r hr => hsal r (hperm.mem_iff.mpr hr)
  have hdperm : (deptRecords data d).Perm (deptRecords data' d) := hperm.filter _
  have hps := parseSalaries_ok (deptRecords data d)
    (fun r hr => hsal r (List.mem_of_mem_filter hr))
  have hps' := parseSalaries_ok (deptRecords data' d)
    (fun r hr => hsal' r (List.mem_of_mem_filter hr))
  have hsperm : ((deptRecords data d).filterMap (fun r => (dictGet r "Оклад").bind pyInt)).Perm
      ((deptRecords data' d).filterMap (fun r => (dictGet r "Оклад").bind pyInt)) :=
    hdperm.filterMap _
  simp only [mkEntry, hps, hps']
  rw [pymin_perm hsperm, pymax_perm hsperm, hsperm.sum_eq, hsperm.length_eq, hdperm.length_eq]

theorem buildReport_congr {data data' : List Record}
    (h : ∀ d, mkEntry data d = mkEntry data' d) :
    ∀ ds, buildReport data ds = buildReport data' ds := by
  intro ds
  induction ds with
  | nil => rfl
  | cons d ds ih => rw [buildReport, buildReport, h d, ih]

end PermutationLemmas

/-- Claim C9: on data whose Оклад fields are integer-parseable,
gen_department_report returns exactly the same summary sequence for every
permutation of the input rows: the report depends only on the multiset of
records. -/
theorem C9_report_permutation_invariant (data data' : List Record)
    (hsal : ∀ r ∈ data, ((dictGet r "Оклад").bind pyInt).isSome)
    (hperm : data.Perm data') :
    genDepartmentReport data = genDepartmentReport data' := by
  rcases getDepts_dichotomy data with hdep | ⟨⟨r, hr, hrd⟩, herr⟩
  · have hdep' : ∀ r ∈ data', (dictGet r "Департамент").isSome :=
      fun r2 hr2 => hdep r2 (hperm.mem_iff.mpr hr2)
    have h1 := getDepts_ok data hdep
    have h2 := getDepts_ok data' hdep'
    have hfm : (data.filterMap (fun r => dictGet r "Департамент")).Perm
        (data'.filterMap (fun r => dictGet r "Департамент")) := hperm.filterMap _
    have hsort := sortStr_eq_of_perm hfm.dedup
    rw [genDepartmentReport, genDepartmentReport, h1, h2]
    show buildReport data (sortStr (data.filterMap (fun r => dictGet r "Департамент")).dedup) =
      buildReport data' (sortStr (data'.filterMap (fun r => dictGet r "Департамент")).dedup)
    rw [hsort]
    exact buildReport_congr (mkEntry_perm hperm hsal) _
  · rcases getDepts_dichotomy data' with hdep' | ⟨-, herr'⟩
    · have : (dictGet r "Департамент").isSome := hdep' r (hperm.mem_iff.mp hr)
      rw [hrd] at this
      cases this
    · rw [genDepartmentReport, genDepartmentReport, herr, herr']

/-- Witness for C9: the scenario data and a reordering of its rows give
identical reports. -/
theorem C9_report_permutation_invariant_witness :
    (∀ r ∈ exData, ((dictGet r "Оклад").bind pyInt).isSome) ∧
    exData.Perm exDataSwapped ∧
    genDepartmentReport exData = genDepartmentReport exDataSwapped :=
  ⟨by decide, by decide,
    C9_report_permutation_invariant exData exDataSwapped (by decide) (by decide)⟩

section SessionLemmas

theorem menuStep_spec {w : String → Bool} {data : List Record}
    {cache : Option (List ReportEntry)} {choice out : String} {report : List ReportEntry}
    (hgen : genDepartmentReport data = .ok report)
    (hc : cache = none ∨ cache = some report) :
    ∀ {cache2 evs cont}, menuStep w data cache choice out = .ok (cache2, evs, cont) →
      (cache2 = none ∨ cache2 = some report) ∧ ∀ ev ∈ evs, ev.2 = report := by
  intro cache2 evs cont h
  rw [menuStep.eq_def] at h
  by_cases h1 : choice = "1"
  · rw [if_pos h1] at h
    match hdh : displayHierarchy data with
    | .error e =>
      rw [hdh] at h
      cases h
    | .ok lines =>
      rw [hdh] at h
      cases h
      exact ⟨hc, fun ev hev => by cases hev⟩
  · rw [if_neg h1] at h
    by_cases h2 : choice = "2"
    · rw [if_pos h2, hgen] at h
      cases h
      exact ⟨Or.inr rfl, fun ev hev => by cases hev⟩
    · rw [if_neg h2] at h
      by_cases h3 : choice = "3"
      · rw [if_pos h3] at h
        rcases hc with rfl | rfl
        · rw [hgen] at h
          dsimp only at h
          by_cases hw : w (outPath out) = true
          · rw [if_pos hw] at h
            by_cases hrep : report = []
            · rw [if_pos hrep] at h
              cases h
            · rw [if_neg hrep] at h
              cases h
              refine ⟨Or.inr rfl, fun ev hev => ?_⟩
              rcases List.mem_singleton.mp hev with rfl
              rfl
          · rw [if_neg hw] at h
            cases h
        · dsimp only at h
          by_cases hw : w (outPath out) = true
          · rw [if_pos hw] at h
            by_cases hrep : report = []
            · rw [if_pos hrep] at h
              cases h
            · rw [if_neg hrep] at h
              cases h
              refine ⟨Or.inr rfl, fun ev hev => ?_⟩
              rcases List.mem_singleton.mp hev with rfl
              rfl
          · rw [if_neg hw] at h
            cases h
      · rw [if_neg h3] at h
        by_cases h4 : choice = "exit"
        · rw [if_pos h4] at h
          cases h
          exact ⟨hc, fun ev hev => by cases hev⟩
        · rw [if_neg h4] at h
          cases h
          exact ⟨hc, fun ev hev => by cases hev⟩

theorem runSession_saves {w : String → Bool} {data : List Record} {report : List ReportEntry}
    (hgen : genDepartmentReport data = .ok report) :
    ∀ (steps : List (String × String)) (cache : Option (List ReportEntry)),
      (cache = none ∨ cache = some report) →
      ∀ ev ∈ (runSession w data cache steps).1, ev.2 = report := by
  intro steps
  induction steps with
  | nil =>
    intro cache hc ev hev
    cases hev
  | cons s rest ih =>
    intro cache hc ev hev
    obtain ⟨choice, out⟩ := s
    rw [runSession] at hev
    match hms : menuStep w data cache choice out with
    | .error e =>
      rw [hms] at hev
      cases hev
    | .ok trip =>
      obtain ⟨cache2, evs, cont⟩ := trip
      obtain ⟨hc2, hevs⟩ := menuStep_spec hgen hc hms
      rw [hms] at hev
      match cont with
      | false =>
        exact hevs ev hev
      | true =>
        simp only [if_true] at hev
        rcases List.mem_append.mp hev with hin | hin
        · exact hevs ev hin
        · exact ih cache2 hc2 ev hin

end SessionLemmas

/-- Claim C5: once the data is loaded, every report the session ever
saves equals the report gen_department_report computes fresh from the
loaded records: the cached report reused across menu selections is always
identical to a fresh recomputation, since the loaded records never change
after startup. -/
theorem C5_saved_report_matches_fresh (data : List Record)
    (report : List ReportEntry) (hgen : genDepartmentReport data = .ok report)
    (w : String → Bool) (steps : List (String × String)) :
    ∀ ev ∈ (runSession w data none steps).1, ev.2 = report :=
  runSession_saves hgen steps none (Or.inl rfl)

/-- Witness for C5: a session on the scenario data that shows the report
twice, saves, shows again and saves to a second file; both saved reports
equal the fresh computation. -/
theorem C5_saved_report_matches_fresh_witness :
    genDepartmentReport exData = .ok ((genDepartmentReport exData).toOption.getD []) ∧
    ("out.csv", (genDepartmentReport exData).toOption.getD []) ∈
      (runSession (fun _ => true) exData none
        [("2", ""), ("3", "out.csv"), ("1", ""), ("3", "two.csv")]).1 ∧
    ("out.csv", (genDepartmentReport exData).toOption.getD []).2 =
      (genDepartmentReport exData).toOption.getD [] :=
  ⟨rfl,
   by
    have h : (runSession (fun _ => true) exData none
        [("2", ""), ("3", "out.csv"), ("1", ""), ("3", "two.csv")]).1 =
        [("out.csv", (genDepartmentReport exData).toOption.getD []),
         ("two.csv", (genDepartmentReport exData).toOption.getD [])] := rfl
    rw [h]
    exact List.mem_cons_self _ _,
   C5_saved_report_matches_fresh exData ((genDepartmentReport exData).toOption.getD []) rfl
     (fun _ => true) [("2", ""), ("3", "out.csv"), ("1", ""), ("3", "two.csv")]
     ("out.csv", (genDepartmentReport exData).toOption.getD [])
     (by
      have h : (runSession (fun _ => true) exData none
          [("2", ""), ("3", "out.csv"), ("1", ""), ("3", "two.csv")]).1 =
          [("out.csv", (genDepartmentReport exData).toOption.getD []),
           ("two.csv", (genDepartmentReport exData).toOption.getD [])] := rfl
      rw [h]
      exact List.mem_cons_self _ _)⟩

section CsvStepLemmas

theorem parseLine_nil (mode : CsvMode) (acc : List Char) (fields : List String) :
    parseLine mode acc fields [] = (fields ++ [String.mk acc], []) := by
  cases mode <;> rfl

theorem quoted_q (acc : List Char) (fields : List String) (cs : List Char) :
    parseLine .quoted acc fields (quoteChar :: cs) = parseLine .afterQuote acc fields cs := rfl

theorem quoted_c {c : Char} (hc : c ≠ quoteChar) (acc : List Char) (fields : List String)
    (cs : List Char) :
    parseLine .quoted acc fields (c :: cs) = parseLine .quoted (acc ++ [c]) fields cs := by
  rw [parseLine, if_neg hc]

theorem afterQuote_q (acc : List Char) (fields : List String) (cs : List Char) :
    parseLine .afterQuote acc fields (quoteChar :: cs) =
      parseLine .quoted (acc ++ [quoteChar]) fields cs := rfl

theorem afterQuote_semi (acc : List Char) (fields : List String) (cs : List Char) :
    parseLine .afterQuote acc fields (';' :: cs) =
      parseLine .start [] (fields ++ [String.mk acc]) cs := rfl

theorem afterQuote_crlf (acc : List Char) (fields : List String) (cs : List Char) :
    parseLine .afterQuote acc fields ('\r' :: '\n' :: cs) = (fields ++ [String.mk acc], cs) := rfl

theorem start_q (acc : List Char) (fields : List String) (cs : List Char) :
    parseLine .start acc fields (quoteChar :: cs) = parseLine .quoted acc fields cs := rfl

theorem start_semi (acc : List Char) (fields : List String) (cs : List Char) :
    parseLine .start acc fields (';' :: cs) =
      parseLine .start [] (fields ++ [String.mk acc]) cs := rfl

theorem start_crlf (acc : List Char) {fields : List String} (hf : fields ≠ [])
    (cs : List Char) :
    parseLine .start acc fields ('\r' :: '\n' :: cs) = (fields ++ [String.mk acc], cs) := by
  rw [parseLine]
  rw [if_neg (by decide), if_neg (by decide), if_neg (by decide), if_pos rfl, if_neg hf]
  rfl

theorem start_other {c : Char} (h1 : c ≠ quoteChar) (h2 : c ≠ ';') (h3 : c ≠ '\n')
    (h4 : c ≠ '\r') (acc : List Char) (fields : List String) (cs : List Char) :
    parseLine .start acc fields (c :: cs) = parseLine .bare (acc ++ [c]) fields cs := by
  rw [parseLine, if_neg h1, if_neg h2, if_neg h3, if_neg h4]

theorem bare_semi (acc : List Char) (fields : List String) (cs : List Char) :
    parseLine .bare acc fields (';' :: cs) =
      parseLine .start [] (fields ++ [String.mk acc]) cs := rfl

theorem bare_crlf (acc : List Char) (fields : List String) (cs : List Char) :
    parseLine .bare acc fields ('\r' :: '\n' :: cs) = (fields ++ [String.mk acc], cs) := rfl

theorem bare_other {c : Char} (h2 : c ≠ ';') (h3 : c ≠ '\n') (h4 : c ≠ '\r')
    (acc : List Char) (fields : List String) (cs : List Char) :
    parseLine .bare acc fields (c :: cs) = parseLine .bare (acc ++ [c]) fields cs := by
  rw [parseLine, if_neg h2, if_neg h3, if_neg h4]

theorem quoted_run (ds : List Char) :
    ∀ acc fields rest, parseLine .quoted acc fields (escQuotes ds ++ quoteChar :: rest) =
      parseLine .afterQuote (acc ++ ds) fields rest := by
  induction ds with
  | nil =>
    intro acc fields rest
    rw [escQuotes, List.nil_append, quoted_q, List.append_nil]
  | cons c cs ih =>
    intro acc fields rest
    by_cases hc : c = quoteChar
    · subst hc
      rw [escQuotes, if_pos rfl, List.cons_append, List.cons_append, quoted_q, afterQuote_q,
        ih (acc ++ [quoteChar]), List.append_assoc]
      rfl
    · rw [escQuotes, if_neg hc, List.cons_append, quoted_c hc, ih (acc ++ [c]),
        List.append_assoc]
      rfl

theorem notSpecial_neq {c : Char} (h : isSpecialChar c = false) :
    c ≠ ';' ∧ c ≠ quoteChar ∧ c ≠ '\n' ∧ c ≠ '\r' := by
  rw [isSpecialChar] at h
  simp only [Bool.or_eq_false_iff, decide_eq_false_iff_not] at h
  exact ⟨h.1.1.1, h.1.1.2, h.1.2, h.2⟩

theorem bare_run (ds : List Char) (h : ∀ c ∈ ds, isSpecialChar c = false) :
    ∀ acc fields rest, parseLine .bare acc fields (ds ++ rest) =
      parseLine .bare (acc ++ ds) fields rest := by
  induction ds with
  | nil =>
    intro acc fields rest
    rw [List.nil_append, List.append_nil]
  | cons c cs ih =>
    intro acc fields rest
    obtain ⟨h2, h1, h3, h4⟩ := notSpecial_neq (h c (List.mem_cons_self _ _))
    rw [List.cons_append, bare_other h2 h3 h4, ih (fun x hx => h x (List.mem_cons_of_mem _ hx)),
      List.append_assoc]
    rfl

theorem field_semi (f : String) (fields : List String) (rest : List Char) :
    parseLine .start [] fields (encodeField f ++ ';' :: rest) =
      parseLine .start [] (fields ++ [f]) rest := by
  rw [encodeField]
  by_cases hq : f.data.any isSpecialChar = true
  · rw [if_pos hq, List.cons_append, start_q, List.append_assoc, List.singleton_append,
      quoted_run f.data [] fields (';' :: rest), List.nil_append, afterQuote_semi]
  · rw [if_neg hq]
    have hns : ∀ c ∈ f.data, isSpecialChar c = false := by
      intro c hc
      have := List.any_eq_false.mp (Bool.not_eq_true _ ▸ hq : f.data.any isSpecialChar = false) c hc
      simpa using this
    match hf : f.data with
    | [] =>
      rw [List.nil_append, start_semi]
      have : f = String.mk [] := by rw [← hf]
      rw [this]
    | c :: cs =>
      rw [hf] at hns
      obtain ⟨h2, h1, h3, h4⟩ := notSpecial_neq (hns c (List.mem_cons_self _ _))
      rw [List.cons_append, start_other h1 h2 h3 h4, List.nil_append,
        bare_run cs (fun x hx => hns x (List.mem_cons_of_mem _ hx)) [c] fields (';' :: rest),
        bare_semi]
      have : f = String.mk ([c] ++ cs) := by rw [List.singleton_append, ← hf]
      rw [this]

theorem field_crlf (f : String) {fields : List String} (hf : fields ≠ []) (rest : List Char) :
    parseLine .start [] fields (encodeField f ++ '\r' :: '\n' :: rest) =
      (fields ++ [f], rest) := by
  rw [encodeField]
  by_cases hq : f.data.any isSpecialChar = true
  · rw [if_pos hq, List.cons_append, start_q, List.append_assoc, List.singleton_append,
      quoted_run f.data [] fields ('\r' :: '\n' :: rest), List.nil_append, afterQuote_crlf]
  · rw [if_neg hq]
    have hns : ∀ c ∈ f.data, isSpecialChar c = false := by
      intro c hc
      have := List.any_eq_false.mp (Bool.not_eq_true _ ▸ hq : f.data.any isSpecialChar = false) c hc
      simpa using this
    match hfd : f.data with
    | [] =>
      rw [List.nil_append, start_crlf [] hf]
      have : f = String.mk [] := by rw [← hfd]
      rw [this]
    | c :: cs =>
      rw [hfd] at hns
      obtain ⟨h2, h1, h3, h4⟩ := notSpecial_neq (hns c (List.mem_cons_self _ _))
      rw [List.cons_append, start_other h1 h2 h3 h4, List.nil_append,
        bare_run cs (fun x hx => hns x (List.mem_cons_of_mem _ hx)) [c] fields
          ('\r' :: '\n' :: rest),
        bare_crlf]
      have : f = String.mk ([c] ++ cs) := by rw [List.singleton_append, ← hfd]
      rw [this]

theorem row_crlf (fs : List String) :
    ∀ fields rest, fs ≠ [] → (fields = [] → 2 ≤ fs.length) →
      parseLine .start [] fields (encodeRow fs ++ '\r' :: '\n' :: rest) = (fields ++ fs, rest) := by
  induction fs with
  | nil =>
    intro fields rest hne _
    exact absurd rfl hne
  | cons f fs ih =>
    intro fields rest hne hlen
    match fs with
    | [] =>
      have hf : fields ≠ [] := by
        intro hnil
        have := hlen hnil
        simp at this
      rw [encodeRow, field_crlf f hf]
    | f2 :: fs2 =>
      have hcne : (f2 :: fs2 : List String) ≠ [] := by simp
      have hlen2 : fields ++ [f] = [] → 2 ≤ (f2 :: fs2).length := by
        intro hnil
        simp at hnil
      rw [encodeRow, List.append_assoc, List.cons_append, field_semi f fields]
      rw [ih (fields ++ [f]) rest hcne hlen2, List.append_assoc]
      · rfl
      · exact hcne

theorem parseRowsFuel_csvContent (rows : List (List String)) (h : ∀ r ∈ rows, 2 ≤ r.length) :
    ∀ n, (csvContent rows).length ≤ n → parseRowsFuel n (csvContent rows) = rows := by
  induction rows with
  | nil =>
    intro n _
    match n with
    | 0 => rfl
    | m + 1 => rfl
  | cons r rows ih =>
    intro n hn
    have hr := h r (List.mem_cons_self _ _)
    have hcontent : csvContent (r :: rows) = encodeRow r ++ '\r' :: '\n' :: csvContent rows := rfl
    have hlen2 : (csvContent (r :: rows)).length =
        (encodeRow r).length + 2 + (csvContent rows).length := by
      rw [hcontent]
      simp
      omega
    match n with
    | 0 =>
      rw [hlen2] at hn
      omega
    | m + 1 =>
      have hrow := row_crlf r [] (csvContent rows) (by intro hnil; rw [hnil] at hr; simp at hr)
        (fun _ => hr)
      match hcs : csvContent (r :: rows) with
      | [] =>
        rw [hcs] at hlen2
        simp at hlen2
        omega
      | c :: cs =>
        rw [parseRowsFuel]
        rw [← hcs, hcontent, hrow, List.nil_append]
        have hm : (csvContent rows).length ≤ m := by
          rw [hlen2] at hn
          omega
        rw [ih (fun r2 hr2 => h r2 (List.mem_cons_of_mem _ hr2)) m hm]

end CsvStepLemmas

section CsvSaveLemmas

theorem dictGet_keys_proj (r : List (String × String)) :
    ∀ ks, r.map Prod.fst = ks → ks.Nodup →
      ks.map (fun k => (dictGet r k).getD "") = r.map Prod.snd := by
  induction r with
  | nil =>
    intro ks hks _
    rw [← hks]
    rfl
  | cons p rest ih =>
    intro ks hks hnd
    obtain ⟨k0, v0⟩ := p
    rw [List.map_cons] at hks
    subst hks
    rw [List.map_cons, List.map_cons]
    have hhead : dictGet ((k0, v0) :: rest) k0 = some v0 := by
      rw [dictGet, if_pos rfl]
    rw [hhead]
    have hnotin : k0 ∉ rest.map Prod.fst := (List.nodup_cons.mp hnd).1
    have htail : (rest.map Prod.fst).map (fun k => (dictGet ((k0, v0) :: rest) k).getD "") =
        (rest.map Prod.fst).map (fun k => (dictGet rest k).getD "") := by
      refine List.map_congr_left ?_
      intro k hk
      have hkk : k0 ≠ k := fun hh => hnotin (hh ▸ hk)
      rw [dictGet, if_neg hkk]
    rw [htail, ih (rest.map Prod.fst) rfl (List.nodup_cons.mp hnd).2]
    rfl

theorem zip_map_fst_snd {α β : Type} (l : List (α × β)) :
    (l.map Prod.fst).zip (l.map Prod.snd) = l := by
  induction l with
  | nil => rfl
  | cons p rest ih => simp [ih]

end CsvSaveLemmas

/-- Claim C8: saving a non-empty report (rows sharing the same field
names in the same order, values already rendered by str()) with
save_report_to_csv and reloading the written file with read_data yields
exactly the original rows: one record per summary, in order, with the
summary's field names and string values. -/
theorem C8_csv_round_trip (r0 : Record) (rs : List Record)
    (hu : ∀ r ∈ r0 :: rs, r.map Prod.fst = r0.map Prod.fst)
    (hnd : (r0.map Prod.fst).Nodup)
    (hlen : 2 ≤ r0.length) :
    ∃ content, saveReportToCSV (r0 :: rs) = .ok content ∧
      readData content = r0 :: rs := by
  have hall : (r0 :: rs).all (fun r => r.all (fun p => decide (p.1 ∈ r0.map Prod.fst))) = true := by
    refine List.all_eq_true.mpr ?_
    intro r hr
    refine List.all_eq_true.mpr ?_
    intro p hp
    have : p.1 ∈ r.map Prod.fst := List.mem_map.mpr ⟨p, hp, rfl⟩
    rw [hu r hr] at this
    exact decide_eq_true this
  have hvals : ∀ r ∈ r0 :: rs,
      (r0.map Prod.fst).map (fun k => (dictGet r k).getD "") = r.map Prod.snd := by
    intro r hr
    have : r.map Prod.fst = r0.map Prod.fst := hu r hr
    exact dictGet_keys_proj r (r0.map Prod.fst) this hnd
  have hrowsmap : (r0 :: rs).map (fun r => (r0.map Prod.fst).map (fun k => (dictGet r k).getD ""))
      = (r0 :: rs).map (fun r => r.map Prod.snd) :=
    List.map_congr_left hvals
  refine ⟨_, by rw [saveReportToCSV, if_pos hall], ?_⟩
  rw [readData]
  have hdata : (String.mk (csvContent ((r0.map Prod.fst) ::
      (r0 :: rs).map (fun r => (r0.map Prod.fst).map (fun k => (dictGet r k).getD ""))))).data =
      csvContent ((r0.map Prod.fst) :: (r0 :: rs).map (fun r => r.map Prod.snd)) := by
    rw [hrowsmap]
  rw [hdata]
  have hrlen : ∀ row ∈ (r0.map Prod.fst) :: (r0 :: rs).map (fun r => r.map Prod.snd),
      2 ≤ row.length := by
    intro row hrow
    rcases List.mem_cons.mp hrow with rfl | hrow2
    · rw [List.length_map]
      exact hlen
    · obtain ⟨r, hr, rfl⟩ := List.mem_map.mp hrow2
      rw [List.length_map]
      have : (r.map Prod.fst).length = (r0.map Prod.fst).length := by rw [hu r hr]
      rw [List.length_map, List.length_map] at this
      rw [this]
      exact hlen
  rw [parseRowsFuel_csvContent _ hrlen _ (le_refl _)]
  show ((((r0 :: rs).map (fun r => r.map Prod.snd)).filter (fun r => decide (r ≠ []))).map
    (fun r => (r0.map Prod.fst).zip r)) = r0 :: rs
  have hfil : ((r0 :: rs).map (fun r => r.map Prod.snd)).filter (fun r => decide (r ≠ [])) =
      (r0 :: rs).map (fun r => r.map Prod.snd) := by
    refine List.filter_eq_self.mpr ?_
    intro row hrow
    obtain ⟨r, hr, rfl⟩ := List.mem_map.mp hrow
    refine decide_eq_true ?_
    intro hnil
    have h2 := hrlen (r.map Prod.snd) (List.mem_cons_of_mem _ hrow)
    rw [hnil] at h2
    simp at h2
  rw [hfil]
  rw [List.map_map]
  have : ∀ r ∈ r0 :: rs, ((r0.map Prod.fst).zip ∘ fun r => r.map Prod.snd) r = r := by
    intro r hr
    show (r0.map Prod.fst).zip (r.map Prod.snd) = r
    rw [← hu r hr]
    exact zip_map_fst_snd r
  rw [List.map_congr_left this]
  simp

/-- Witness for C8 at a two-column, two-row report whose values contain
the delimiter and the quote character. -/
theorem C8_csv_round_trip_witness :
    ∃ content,
      saveReportToCSV [[("Департамент", "A;B"), ("Численность", "2")],
        [("Департамент", "C"), ("Численность", "1")]] = .ok content ∧
      readData content = [[("Департамент", "A;B"), ("Численность", "2")],
        [("Департамент", "C"), ("Численность", "1")]] :=
  C8_csv_round_trip [("Департамент", "A;B"), ("Численность", "2")]
    [[("Департамент", "C"), ("Численность", "1")]] (by decide) (by decide) (by decide)

/-- Claim C7: for the empty report sequence, print_department_report
emits exactly one empty-report message and nothing else: no header row
and no separator row are printed. -/
theorem C7_empty_report_message : printDepartmentReport [] = .ok ["Отчёт пуст."] := by decide

/-- Claim C2 (code bug): with a record whose Оклад field is not an
integer, gen_department_report raises ValueError; main has no handler
around the report action, so the exception terminates the whole session
instead of aborting only the report generation: a later menu input is
never processed and the session state is lost.  The spec requires the
error to abort only the in-progress report generation with the menu loop
continuing. -/
theorem C2_invalid_salary_crashes_session :
    genDepartmentReport exBadSalary = .error .valueError ∧
    runSession (fun _ => true) exBadSalary none [("2", ""), ("1", "")] =
      ([], some (.pyExc .valueError)) := by decide

/-- Claim C4 (code bug): when the save destination is not writable, the
OSError raised inside save_report_to_csv propagates uncaught through
main's menu loop and terminates the whole session: a later menu input is
never processed.  The spec requires the error to abort only the save
action with the session continuing; the data itself is well-formed, as
the first conjunct shows. -/
theorem C4_save_io_error_crashes_session :
    (genDepartmentReport exData).isOk = true ∧
    runSession (fun _ => false) exData none [("3", "r.csv"), ("1", "")] =
      ([], some .ioError) := by decide

/-- Claim C10: for records containing Департамент and Отдел keys,
display_hierarchy succeeds regardless of the presence or content of the
Оклад field: it never reads that field, so removing every Оклад entry
leaves its output unchanged, and malformed salary values cannot make it
fail. -/
theorem C10_hierarchy_ignores_salary (data : List Record)
    (h : ∀ r ∈ data, (dictGet r "Департамент").isSome ∧ (dictGet r "Отдел").isSome) :
    (∃ lines, displayHierarchy data = .ok lines) ∧
    displayHierarchy (data.map (fun r => r.filter (fun p => p.1 != "Оклад"))) =
      displayHierarchy data := by
  constructor
  · obtain ⟨out, hout⟩ := hierCollect_ok data ([], []) h
    obtain ⟨deps, tms⟩ := out
    exact ⟨_, by rw [displayHierarchy, hout]⟩
  · rw [displayHierarchy, displayHierarchy, hierCollect_scrub data ([], [])]

/-- Witness for C10 at a record list whose first record has no Оклад
field at all and whose second has a non-numeric one. -/
theorem C10_hierarchy_ignores_salary_witness :
    (∃ lines, displayHierarchy exNoSalary = .ok lines) ∧
    displayHierarchy (exNoSalary.map (fun r => r.filter (fun p => p.1 != "Оклад"))) =
      displayHierarchy exNoSalary :=
  C10_hierarchy_ignores_salary exNoSalary (by decide)

section TableLemmas

theorem mem_keys_isSome {β : Type} (r : List (String × β)) (k : String)
    (h : k ∈ r.map Prod.fst) : (dictGet r k).isSome := by
  induction r with
  | nil => cases h
  | cons p rest ih =>
    obtain ⟨k0, v0⟩ := p
    rw [dictGet]
    by_cases hk : k0 = k
    · rw [if_pos hk]
      rfl
    · rw [if_neg hk]
      rcases List.mem_cons.mp h with hh | hh
      · exact absurd hh.symm hk
      · exact ih hh

theorem colLens_ok (header : String) (report : List CellRow)
    (h : ∀ e ∈ report, (dictGet e header).isSome) :
    colLens header report =
      .ok (report.map (fun e => ((dictGet e header).map (fun c => c.str.length)).getD 0)) := by
  induction report with
  | nil => rfl
  | cons e es ih =>
    obtain ⟨c, hc⟩ := Option.isSome_iff_exists.mp (h e (List.mem_cons_self _ _))
    rw [colLens, hc, ih (fun e2 he2 => h e2 (List.mem_cons_of_mem _ he2)), List.map_cons, hc]
    rfl

theorem foldl_max_eq_foldr (as : List ℕ) : ∀ a, as.foldl max a = max a (as.foldr max 0) := by
  induction as with
  | nil =>
    intro a
    simp
  | cons c cs ih =>
    intro a
    rw [List.foldl_cons, List.foldr_cons, ih (max a c), max_assoc]

theorem pymaxNat_ne_nil {ls : List ℕ} (h : ls ≠ []) : pymaxNat ls = some (ls.foldr max 0) := by
  match ls with
  | [] => exact absurd rfl h
  | a :: as =>
    rw [pymaxNat, List.foldr_cons, ← foldl_max_eq_foldr]

theorem colWidth_ok (report : List CellRow) (header : String) (hne : report ≠ [])
    (h : ∀ e ∈ report, (dictGet e header).isSome) :
    colWidth report header = .ok (max header.length
      ((report.map (fun e => ((dictGet e header).map (fun c => c.str.length)).getD 0)).foldr
        max 0)) := by
  rw [colWidth, colLens_ok header report h]
  dsimp only
  rw [pymaxNat_ne_nil (by
    intro hnil
    rw [List.map_eq_nil_iff] at hnil
    exact hne hnil)]

theorem colWidths_ok (report : List CellRow) (hne : report ≠ []) :
    ∀ hs : List String, (∀ h ∈ hs, ∀ e ∈ report, (dictGet e h).isSome) →
      colWidths report hs = .ok (hs.map (fun h => max h.length
        ((report.map (fun e => ((dictGet e h).map (fun c => c.str.length)).getD 0)).foldr
          max 0))) := by
  intro hs
  induction hs with
  | nil => intro _; rfl
  | cons h0 hs ih =>
    intro hsome
    rw [colWidths, colWidth_ok report h0 hne (hsome h0 (List.mem_cons_self _ _)),
      ih (fun h2 hh2 => hsome h2 (List.mem_cons_of_mem _ hh2)), List.map_cons]
    rfl

end TableLemmas

/-- Claim C6 as amended: for a non-empty uniform-shape report,
print_department_report prints a header row, a dash separator row, then
one row per record; each column's width is the maximum string length over
the header name and every value in that column, computed independently
per column; header names are right-padded, and each cell value is padded
to the column width by cellPad: right-padded when it is a string,
left-padded (right-aligned) when it is numeric; every cell is followed by
the separator. -/
theorem C6_table_layout_amended (r0 : CellRow) (rs : List CellRow)
    (hu : ∀ r ∈ r0 :: rs, r.map Prod.fst = r0.map Prod.fst) :
    ∃ widths, colWidths (r0 :: rs) (r0.map Prod.fst) = .ok widths ∧
      widths = (r0.map Prod.fst).map (fun h =>
        max h.length (((r0 :: rs).map
          (fun e => ((dictGet e h).map (fun c => c.str.length)).getD 0)).foldr max 0)) ∧
      printDepartmentReport (r0 :: rs) = .ok (
        joinCols (((r0.map Prod.fst).zip widths).map (fun p => padRight p.1 p.2)) ::
        joinCols (widths.map (fun w => String.mk (List.replicate w '-'))) ::
        (r0 :: rs).map (fun e =>
          joinCols (((e.map Prod.snd).zip widths).map (fun p => cellPad p.1 p.2)))) := by
  have hkeys : ∀ h ∈ r0.map Prod.fst, ∀ e ∈ r0 :: rs, (dictGet e h).isSome := by
    intro h hh e he
    refine mem_keys_isSome e h ?_
    rw [hu e he]
    exact hh
  have hcw := colWidths_ok (r0 :: rs) (by simp) (r0.map Prod.fst) hkeys
  refine ⟨_, hcw, rfl, ?_⟩
  rw [printDepartmentReport, hcw]

/-- Witness for C6 as amended, at a two-column two-row report mixing a
string column with a numeric column. -/
theorem C6_table_layout_amended_witness :
    ∃ widths,
      colWidths [[("Д", Cell.mk "ab" false), ("N", Cell.mk "100" true)],
          [("Д", Cell.mk "c" false), ("N", Cell.mk "7" true)]]
        ([("Д", Cell.mk "ab" false), ("N", Cell.mk "100" true)].map Prod.fst) = .ok widths ∧
      widths = ([("Д", Cell.mk "ab" false), ("N", Cell.mk "100" true)].map Prod.fst).map (fun h =>
        max h.length ((([[("Д", Cell.mk "ab" false), ("N", Cell.mk "100" true)],
            [("Д", Cell.mk "c" false), ("N", Cell.mk "7" true)]] : List CellRow).map
          (fun e => ((dictGet e h).map (fun c => c.str.length)).getD 0)).foldr max 0)) ∧
      printDepartmentReport [[("Д", Cell.mk "ab" false), ("N", Cell.mk "100" true)],
          [("Д", Cell.mk "c" false), ("N", Cell.mk "7" true)]] = .ok (
        joinCols ((([("Д", Cell.mk "ab" false), ("N", Cell.mk "100" true)].map Prod.fst).zip
          widths).map (fun p => padRight p.1 p.2)) ::
        joinCols (widths.map (fun w => String.mk (List.replicate w '-'))) ::
        ([[("Д", Cell.mk "ab" false), ("N", Cell.mk "100" true)],
          [("Д", Cell.mk "c" false), ("N", Cell.mk "7" true)]] : List CellRow).map (fun e =>
          joinCols (((e.map Prod.snd).zip widths).map (fun p => cellPad p.1 p.2)))) :=
  C6_table_layout_amended [("Д", Cell.mk "ab" false), ("N", Cell.mk "100" true)]
    [[("Д", Cell.mk "c" false), ("N", Cell.mk "7" true)]] (by decide)

/-- Claim C6 counterexample: a report with the single numeric column
Численность and value 5 is printed with the value padded on the left
(right-aligned), not right-padded as the claim states for every value. -/
theorem C6_counterexample_numeric_left_padded :
    printDepartmentReport [[("Численность", ⟨"5", true⟩)]] =
      .ok ["Численность | ", "----------- | ", "          5 | "] ∧
    "          5 | " ≠ padRight "5" 11 ++ " | " := by decide
